import Mathlib

/-!
# OpenLayers-React lifecycle integration: a shallow embedding

This file embeds the OpenLayers/React integration pattern from the repository:

* `OLMapContext.ts` creates a React context whose default value is a single
  OpenLayers `Map` constructed once at module load, with one OSM tile layer,
  view center `(0, 0)`, zoom `2`, and no `target` property (detached).
* The basic implementation (`OLMap.tsx`, private mode) constructs its own
  `Map` inside a `useEffect` with an empty dependency array, targeting the
  committed `div` through `mapRef.current!`, and its cleanup calls
  `olMap.setTarget(undefined)`.
* The better implementation (shared mode) obtains the context map through
  `useContext(OLMapContext)` and, in a `useEffect` with empty dependency
  array, calls `olMap.setTarget(mapRef.current!)`; its cleanup calls
  `olMap.setTarget(undefined)`.

React's lifecycle is modelled as a stream of `LifeEvent`s (mount with a
surface handle, re-render, unmount) driving a step function per component.
Each step emits observable `Action`s: rendering the div, committing the
surface (which populates the ref), `setTarget` calls, and invalidation of
the handle after unmount.  `useEffect` with an empty dependency array runs
the effect only on the mount transition and the cleanup only on the unmount
transition, after the surface is committed and before the handle is
invalidated, respectively; this framework scheduling contract is the one
assumption of the embedding.
-/

namespace OLReact

/-- Tile source descriptors; the repository only uses the OSM source. -/
inductive Source
  | OSM
  deriving DecidableEq, Repr

/-- `new TileLayer({source})`. -/
structure TileLayer where
  source : Source
  deriving DecidableEq, Repr

/-- `new View({center, zoom})`. -/
structure View where
  center : Int × Int
  zoom : Nat
  deriving DecidableEq, Repr

/-- An OpenLayers `Map`: an ordered layer list, a view, and a mutable
attachment target (`none` models `undefined`, i.e. the detached state).
Surface handles are identified by natural numbers. -/
structure Map where
  layers : List TileLayer
  view : View
  target : Option Nat
  deriving DecidableEq, Repr

/-- `map.setTarget(t)`: overwrite the attachment target, nothing else. -/
def Map.setTarget (m : Map) (t : Option Nat) : Map :=
  { m with target := t }

/-- The map built by `OLMapContext.ts` as the context default value:
`new Map({layers: [new TileLayer({source: new OSM()})], view: new View({center: [0,0], zoom: 2})})`.
No `target` property is supplied. -/
def contextMap : Map :=
  { layers := [{ source := Source.OSM }]
    view := { center := (0, 0), zoom := 2 }
    target := none }

/-- The map built inside the basic implementation's effect:
same layers and view, but `target: mapRef.current!` (the handle `t`). -/
def privateMap (t : Nat) : Map :=
  { layers := [{ source := Source.OSM }]
    view := { center := (0, 0), zoom := 2 }
    target := some t }

/-- What the rendered map looks like, independent of where it is attached:
the layer list and the view. -/
def mapDescription (m : Map) : List TileLayer × View :=
  (m.layers, m.view)

/-! ## Process-level model of the context module

`createContext(new Map({...}))` runs once, when the module is evaluated.
We track how many `Map` instances a process has ever constructed and give
each construction a fresh identity (its allocation index), so referential
equality of viewer instances is expressible. -/

/-- Process state: the number of viewer instances ever constructed, and the
context register holding the identity and value of the context map once the
module has been evaluated. -/
structure Proc where
  constructedViewers : Nat
  ctx : Option (Nat × Map)
  deriving DecidableEq, Repr

/-- `new Map(...)`: constructs a fresh instance; its identity is the
allocation index. -/
def newMapInstance (p : Proc) (m : Map) : Proc × (Nat × Map) :=
  ({ p with constructedViewers := p.constructedViewers + 1 },
   (p.constructedViewers, m))

/-- Evaluating `OLMapContext.ts`: `createContext(new Map({...}))` constructs
the context map exactly once and stores it in the context register. -/
def loadContextModule (p : Proc) : Proc :=
  { (newMapInstance p contextMap).1 with ctx := some (newMapInstance p contextMap).2 }

/-- `useContext(OLMapContext)`: reads the context register; constructs
nothing and leaves the process unchanged. -/
def getContext (p : Proc) : Option (Nat × Map) × Proc :=
  (p.ctx, p)

/-! ## Lifecycle semantics

One component instance, driven by the framework's lifecycle notifications. -/

/-- Framework lifecycle notifications for one component instance: the
surface is committed with handle `h` (mount), the component re-renders
without unmounting, or the component unmounts. -/
inductive LifeEvent
  | mount (h : Nat)
  | rerender
  | unmount
  deriving DecidableEq, Repr

/-- Observable actions of a run, in order of occurrence:
`renderDiv` — the component's render returns the `div`;
`commit h` — the framework commits the surface `h` to the visible tree and
populates the ref;
`setTargetCall t` — the adapter calls `setTarget` on its viewer;
`invalidate h` — the framework discards handle `h` (it is invalid from here
on). -/
inductive Action
  | renderDiv
  | commit (h : Nat)
  | setTargetCall (t : Option Nat)
  | invalidate (h : Nat)
  deriving DecidableEq, Repr

/-- State of the shared-mode component (the better implementation): the
viewer obtained from `useContext(OLMapContext)` and the ref `mapRef.current`
(`none` models `null`; it holds the committed `div`'s handle while
mounted). -/
structure CompState where
  olMap : Map
  mapRef : Option Nat
  deriving DecidableEq, Repr

/-- Shared-mode component as first rendered: context viewer, null ref. -/
def initShared : CompState :=
  { olMap := contextMap, mapRef := none }

/-- The shared-mode effect body `olMap.setTarget(mapRef.current!)`.
`none` signals that the non-null assertion `!` met a null ref — the branch
the code claims is unreachable (there is no runtime guard). -/
def sharedEffect (m : Map) (ref : Option Nat) : Option (Map × Action) :=
  match ref with
  | some t => some (m.setTarget (some t), Action.setTargetCall (some t))
  | none => none

/-- One lifecycle step of the shared-mode component.  On mount the div is
rendered and committed (populating the ref), then the effect runs — this
ordering is the framework's post-commit effect scheduling.  A re-render
does not re-run the effect (empty dependency array).  On unmount the
cleanup `olMap.setTarget(undefined)` runs before the handle is
invalidated.  Notifications that do not correspond to a transition of this
instance (mount while mounted, re-render or unmount while unmounted) are
not sent by the framework and are modelled as no-ops. -/
def sharedStep (s : CompState) (e : LifeEvent) : Option (CompState × List Action) :=
  match e with
  | LifeEvent.mount h =>
    match s.mapRef with
    | some _ => some (s, [])
    | none =>
      match sharedEffect s.olMap (some h) with
      | some (m, a) =>
        some ({ olMap := m, mapRef := some h },
              [Action.renderDiv, Action.commit h, a])
      | none => none
  | LifeEvent.rerender =>
    match s.mapRef with
    | some h => some (s, [Action.renderDiv, Action.commit h])
    | none => some (s, [])
  | LifeEvent.unmount =>
    match s.mapRef with
    | some h =>
      some ({ olMap := s.olMap.setTarget none, mapRef := none },
            [Action.setTargetCall none, Action.invalidate h])
    | none => some (s, [])

/-- State of the private-mode component (the basic implementation): the
viewer constructed inside the effect (`none` while unmounted — after
cleanup the effect-local map is unreachable and torn down), and the ref. -/
structure PrivState where
  olMap : Option Map
  mapRef : Option Nat
  deriving DecidableEq, Repr

/-- Private-mode component as first rendered: no viewer, null ref. -/
def initPriv : PrivState :=
  { olMap := none, mapRef := none }

/-- The private-mode effect body: `new Map({target: mapRef.current!, ...})`.
Constructing a map with a `target` property attaches it to that handle, so
it is recorded as a `setTarget` call.  `none` again signals the non-null
assertion meeting a null ref. -/
def privateEffect (ref : Option Nat) : Option (Map × Action) :=
  match ref with
  | some t => some (privateMap t, Action.setTargetCall (some t))
  | none => none

/-- One lifecycle step of the private-mode component.  Same scheduling as
`sharedStep`; on unmount the cleanup `olMap.setTarget(undefined)` runs and
the effect-local viewer becomes unreachable (torn down). -/
def privateStep (s : PrivState) (e : LifeEvent) : Option (PrivState × List Action) :=
  match e with
  | LifeEvent.mount h =>
    match s.mapRef with
    | some _ => some (s, [])
    | none =>
      match privateEffect (some h) with
      | some (m, a) =>
        some ({ olMap := some m, mapRef := some h },
              [Action.renderDiv, Action.commit h, a])
      | none => none
  | LifeEvent.rerender =>
    match s.mapRef with
    | some h => some (s, [Action.renderDiv, Action.commit h])
    | none => some (s, [])
  | LifeEvent.unmount =>
    match s.mapRef with
    | some h =>
      some ({ olMap := none, mapRef := none },
            [Action.setTargetCall none, Action.invalidate h])
    | none => some (s, [])

/-- Run a component's step function over a list of lifecycle events,
concatenating the emitted actions; `none` propagates an assertion
failure. -/
def runW {σ : Type} (step : σ → LifeEvent → Option (σ × List Action)) :
    σ → List LifeEvent → Option (σ × List Action)
  | s, [] => some (s, [])
  | s, e :: es =>
    match step s e with
    | none => none
    | some (s1, c) =>
      match runW step s1 es with
      | none => none
      | some (s2, tr) => some (s2, c ++ tr)

/-- Full run of the shared-mode component from its initial state. -/
def sharedRun (evs : List LifeEvent) : Option (CompState × List Action) :=
  runW sharedStep initShared evs

/-- Action trace of a shared-mode run. -/
def sharedTrace (evs : List LifeEvent) : List Action :=
  match sharedRun evs with
  | some p => p.2
  | none => []

/-- Final state of a shared-mode run. -/
def sharedFinal (evs : List LifeEvent) : CompState :=
  match sharedRun evs with
  | some p => p.1
  | none => initShared

/-- Full run of the private-mode component from its initial state. -/
def privRun (evs : List LifeEvent) : Option (PrivState × List Action) :=
  runW privateStep initPriv evs

/-- Action trace of a private-mode run. -/
def privTrace (evs : List LifeEvent) : List Action :=
  match privRun evs with
  | some p => p.2
  | none => []

/-- Final state of a private-mode run. -/
def privFinal (evs : List LifeEvent) : PrivState :=
  match privRun evs with
  | some p => p.1
  | none => initPriv

/-! ## Trace predicates -/

/-- An action is a detach: `setTarget(undefined)`. -/
def isDetach : Action → Bool
  | Action.setTargetCall none => true
  | _ => false

/-- An action is an attach: `setTarget` with a non-null handle. -/
def isAttach : Action → Bool
  | Action.setTargetCall (some _) => true
  | _ => false

/-- An event is an unmount notification. -/
def isUnmountEv : LifeEvent → Bool
  | LifeEvent.unmount => true
  | _ => false

/-- Attach-after-commit: wherever the trace attaches handle `h`, the
commit of surface `h` occurs strictly earlier in the trace. -/
def attachOk (tr : List Action) : Prop :=
  ∀ h l1 l2, tr = l1 ++ Action.setTargetCall (some h) :: l2 →
    Action.commit h ∈ l1

/-- Detach-before-invalidation: wherever the trace invalidates a handle,
the immediately preceding action is the detach `setTarget(undefined)`. -/
def detachBeforeInvalid (tr : List Action) : Prop :=
  ∀ h l1 l2, tr = l1 ++ Action.invalidate h :: l2 →
    l1.getLast? = some (Action.setTargetCall none)

/-- Well-formed notification streams, given whether the instance is
currently mounted: the framework mounts only an unmounted instance and
re-renders or unmounts only a mounted one. -/
def wfFrom : Bool → List LifeEvent → Bool
  | _, [] => true
  | false, LifeEvent.mount _ :: es => wfFrom true es
  | true, LifeEvent.rerender :: es => wfFrom true es
  | true, LifeEvent.unmount :: es => wfFrom false es
  | _, _ => false

/-- Well-formed notification streams for a freshly created instance. -/
def wf (evs : List LifeEvent) : Bool :=
  wfFrom false evs

/-! ## Basic simp lemmas for the trace predicates -/

@[simp] theorem isDetach_render : isDetach Action.renderDiv = false := rfl

@[simp] theorem isDetach_commit (h : Nat) : isDetach (Action.commit h) = false := rfl

@[simp] theorem isDetach_attach (h : Nat) :
    isDetach (Action.setTargetCall (some h)) = false := rfl

@[simp] theorem isDetach_detach : isDetach (Action.setTargetCall none) = true := rfl

@[simp] theorem isDetach_invalidate (h : Nat) :
    isDetach (Action.invalidate h) = false := rfl

@[simp] theorem isAttach_render : isAttach Action.renderDiv = false := rfl

@[simp] theorem isAttach_commit (h : Nat) : isAttach (Action.commit h) = false := rfl

@[simp] theorem isAttach_attach (h : Nat) :
    isAttach (Action.setTargetCall (some h)) = true := rfl

@[simp] theorem isAttach_detach : isAttach (Action.setTargetCall none) = false := rfl

@[simp] theorem isAttach_invalidate (h : Nat) :
    isAttach (Action.invalidate h) = false := rfl

@[simp] theorem isUnmountEv_mount (h : Nat) :
    isUnmountEv (LifeEvent.mount h) = false := rfl

@[simp] theorem isUnmountEv_rerender : isUnmountEv LifeEvent.rerender = false := rfl

@[simp] theorem isUnmountEv_unmount : isUnmountEv LifeEvent.unmount = true := rfl

/-! ## Chunk lemmas

The two trace predicates hold for each of the individual action chunks a
lifecycle step can emit, and are closed under concatenation of such
chunks. -/

theorem attachOk_nil : attachOk ([] : List Action) := by
  intro h l1 l2 heq
  exact absurd heq (by simp)

theorem attachOk_mountChunk (h : Nat) :
    attachOk [Action.renderDiv, Action.commit h, Action.setTargetCall (some h)] := by
  intro h' l1 l2 heq
  rcases l1 with _ | ⟨a, _ | ⟨b, _ | ⟨c, l1⟩⟩⟩
  · simp at heq
  · simp at heq
  · simp only [List.cons_append, List.nil_append, List.cons.injEq,
      Action.setTargetCall.injEq, Option.some.injEq] at heq
    obtain ⟨ha, hb, hh, -⟩ := heq
    rw [← ha, ← hb, ← hh]
    simp
  · simp at heq

theorem attachOk_rerenderChunk (h : Nat) :
    attachOk [Action.renderDiv, Action.commit h] := by
  intro h' l1 l2 heq
  rcases l1 with _ | ⟨a, _ | ⟨b, l1⟩⟩ <;> simp_all

theorem attachOk_unmountChunk (h : Nat) :
    attachOk [Action.setTargetCall none, Action.invalidate h] := by
  intro h' l1 l2 heq
  rcases l1 with _ | ⟨a, _ | ⟨b, l1⟩⟩ <;> simp_all

theorem detachBeforeInvalid_nil : detachBeforeInvalid ([] : List Action) := by
  intro h l1 l2 heq
  exact absurd heq (by simp)

theorem detachBeforeInvalid_mountChunk (h : Nat) :
    detachBeforeInvalid
      [Action.renderDiv, Action.commit h, Action.setTargetCall (some h)] := by
  intro h' l1 l2 heq
  rcases l1 with _ | ⟨a, _ | ⟨b, _ | ⟨c, l1⟩⟩⟩ <;> simp_all

theorem detachBeforeInvalid_rerenderChunk (h : Nat) :
    detachBeforeInvalid [Action.renderDiv, Action.commit h] := by
  intro h' l1 l2 heq
  rcases l1 with _ | ⟨a, _ | ⟨b, l1⟩⟩ <;> simp_all

theorem detachBeforeInvalid_unmountChunk (h : Nat) :
    detachBeforeInvalid [Action.setTargetCall none, Action.invalidate h] := by
  intro h' l1 l2 heq
  rcases l1 with _ | ⟨a, _ | ⟨b, l1⟩⟩ <;> simp_all

theorem attachOk_append {c tr : List Action}
    (hc : attachOk c) (htr : attachOk tr) : attachOk (c ++ tr) := by
  intro h l1 l2 heq
  rcases List.append_eq_append_iff.mp heq with ⟨a', hl1, htr'⟩ | ⟨c', hc', hx⟩
  · rw [hl1]
    exact List.mem_append_right c (htr h a' l2 htr')
  · cases c' with
    | nil =>
      have : Action.commit h ∈ ([] : List Action) :=
        htr h [] l2 (by simpa using hx.symm)
      simp at this
    | cons y ys =>
      have h2 : Action.setTargetCall (some h) :: l2 = y :: (ys ++ tr) := by
        simpa using hx
      have hy : Action.setTargetCall (some h) = y := (List.cons_eq_cons.mp h2).1
      exact hc h l1 ys (by rw [hc', ← hy])

theorem detachBeforeInvalid_append {c tr : List Action}
    (hc : detachBeforeInvalid c) (htr : detachBeforeInvalid tr) :
    detachBeforeInvalid (c ++ tr) := by
  intro h l1 l2 heq
  rcases List.append_eq_append_iff.mp heq with ⟨a', hl1, htr'⟩ | ⟨c', hc', hx⟩
  · have hlast : a'.getLast? = some (Action.setTargetCall none) :=
      htr h a' l2 htr'
    have hne : a' ≠ [] := by
      intro hnil
      rw [hnil] at hlast
      simp at hlast
    rw [hl1, List.getLast?_append_of_ne_nil c hne]
    exact hlast
  · cases c' with
    | nil =>
      have : ([] : List Action).getLast? = some (Action.setTargetCall none) :=
        htr h [] l2 (by simpa using hx.symm)
      simp at this
    | cons y ys =>
      have h2 : Action.invalidate h :: l2 = y :: (ys ++ tr) := by
        simpa using hx
      have hy : Action.invalidate h = y := (List.cons_eq_cons.mp h2).1
      exact hc h l1 ys (by rw [hc', ← hy])

/-! ## Generic facts about `runW` -/

theorem runW_nil {σ : Type} (step : σ → LifeEvent → Option (σ × List Action)) (s : σ) :
    runW step s [] = some (s, []) := rfl

theorem runW_cons_eq {σ : Type} (step : σ → LifeEvent → Option (σ × List Action))
    {s s1 s2 : σ} {e : LifeEvent} {es : List LifeEvent} {c tr : List Action}
    (hst : step s e = some (s1, c)) (hr : runW step s1 es = some (s2, tr)) :
    runW step s (e :: es) = some (s2, c ++ tr) := by
  simp only [runW, hst, hr]

theorem runW_cons_inv {σ : Type} {step : σ → LifeEvent → Option (σ × List Action)}
    {s s' : σ} {e : LifeEvent} {es : List LifeEvent} {tr : List Action}
    (hrun : runW step s (e :: es) = some (s', tr)) :
    ∃ s1 c tr1, step s e = some (s1, c) ∧ runW step s1 es = some (s', tr1) ∧
      tr = c ++ tr1 := by
  simp only [runW] at hrun
  split at hrun
  · simp at hrun
  · rename_i s1 c heq
    split at hrun
    · simp at hrun
    · rename_i s2 tr1 heq2
      simp only [Option.some.injEq, Prod.mk.injEq] at hrun
      exact ⟨s1, c, tr1, heq, by rw [heq2, hrun.1], hrun.2.symm⟩

theorem runW_total {σ : Type} (step : σ → LifeEvent → Option (σ × List Action))
    (hstep : ∀ s e, ∃ p, step s e = some p) :
    ∀ (evs : List LifeEvent) (s : σ), ∃ p, runW step s evs = some p := by
  intro evs
  induction evs with
  | nil => exact fun s => ⟨(s, []), rfl⟩
  | cons e es ih =>
    intro s
    obtain ⟨⟨s1, c⟩, hst⟩ := hstep s e
    obtain ⟨⟨s2, tr⟩, hr⟩ := ih s1
    exact ⟨(s2, c ++ tr), runW_cons_eq step hst hr⟩

/-- Any trace property that holds of the empty trace, is closed under
concatenation, and holds of every chunk a step emits, holds of every run's
trace. -/
theorem runW_trace_pred {σ : Type} (P : List Action → Prop)
    (step : σ → LifeEvent → Option (σ × List Action))
    (hnil : P [])
    (happ : ∀ {c tr : List Action}, P c → P tr → P (c ++ tr))
    (hstep : ∀ s e s' c, step s e = some (s', c) → P c) :
    ∀ (evs : List LifeEvent) (s s' : σ) (tr : List Action),
      runW step s evs = some (s', tr) → P tr := by
  intro evs
  induction evs with
  | nil =>
    intro s s' tr hrun
    rw [runW_nil] at hrun
    simp only [Option.some.injEq, Prod.mk.injEq] at hrun
    rw [← hrun.2]
    exact hnil
  | cons e es ih =>
    intro s s' tr hrun
    obtain ⟨s1, c, tr1, hst, hr, htr⟩ := runW_cons_inv hrun
    rw [htr]
    exact happ (hstep s e s1 c hst) (ih s1 s' tr1 hr)

/-- Detach counting: if a step function tracks mountedness `mnt` and emits
no detach except on an unmount of a mounted instance (where it emits exactly
one), then over any well-formed stream the number of detaches in the trace
equals the number of unmount notifications. -/
theorem runW_detachCount {σ : Type} (step : σ → LifeEvent → Option (σ × List Action))
    (mnt : σ → Bool)
    (hmount : ∀ s h s' c, mnt s = false → step s (LifeEvent.mount h) = some (s', c) →
      mnt s' = true ∧ c.countP isDetach = 0)
    (hre : ∀ s s' c, mnt s = true → step s LifeEvent.rerender = some (s', c) →
      mnt s' = true ∧ c.countP isDetach = 0)
    (hun : ∀ s s' c, mnt s = true → step s LifeEvent.unmount = some (s', c) →
      mnt s' = false ∧ c.countP isDetach = 1) :
    ∀ (evs : List LifeEvent) (s s' : σ) (tr : List Action),
      wfFrom (mnt s) evs = true → runW step s evs = some (s', tr) →
      tr.countP isDetach = evs.countP isUnmountEv := by
  intro evs
  induction evs with
  | nil =>
    intro s s' tr hwf hrun
    rw [runW_nil] at hrun
    simp only [Option.some.injEq, Prod.mk.injEq] at hrun
    rw [← hrun.2]
    simp
  | cons e es ih =>
    intro s s' tr hwf hrun
    obtain ⟨s1, c, tr1, hst, hr, htr⟩ := runW_cons_inv hrun
    cases e with
    | mount h =>
      cases hm : mnt s with
      | true => rw [hm] at hwf; simp [wfFrom] at hwf
      | false =>
        obtain ⟨hm1, hc⟩ := hmount s h s1 c hm hst
        rw [hm] at hwf
        simp only [wfFrom] at hwf
        have hrec := ih s1 s' tr1 (by rw [hm1]; exact hwf) hr
        rw [htr, List.countP_append, hc, hrec]
        simp [List.countP_cons]
    | rerender =>
      cases hm : mnt s with
      | false => rw [hm] at hwf; simp [wfFrom] at hwf
      | true =>
        obtain ⟨hm1, hc⟩ := hre s s1 c hm hst
        rw [hm] at hwf
        simp only [wfFrom] at hwf
        have hrec := ih s1 s' tr1 (by rw [hm1]; exact hwf) hr
        rw [htr, List.countP_append, hc, hrec]
        simp [List.countP_cons]
    | unmount =>
      cases hm : mnt s with
      | false => rw [hm] at hwf; simp [wfFrom] at hwf
      | true =>
        obtain ⟨hm1, hc⟩ := hun s s1 c hm hst
        rw [hm] at hwf
        simp only [wfFrom] at hwf
        have hrec := ih s1 s' tr1 (by rw [hm1]; exact hwf) hr
        rw [htr, List.countP_append, hc, hrec]
        simp [List.countP_cons, Nat.add_comm]

/-! ## Step-level facts: shared mode -/

theorem sharedStep_total (s : CompState) (e : LifeEvent) :
    ∃ p, sharedStep s e = some p := by
  cases e <;> cases hr : s.mapRef <;> simp [sharedStep, sharedEffect, hr]

theorem sharedStep_chunks (s : CompState) (e : LifeEvent) (s' : CompState)
    (c : List Action) (hst : sharedStep s e = some (s', c)) :
    attachOk c ∧ detachBeforeInvalid c := by
  cases e with
  | mount h =>
    cases hr : s.mapRef with
    | some t =>
      simp [sharedStep, hr] at hst
      rw [hst.2]
      exact ⟨attachOk_nil, detachBeforeInvalid_nil⟩
    | none =>
      simp [sharedStep, hr, sharedEffect] at hst
      rw [← hst.2]
      exact ⟨attachOk_mountChunk h, detachBeforeInvalid_mountChunk h⟩
  | rerender =>
    cases hr : s.mapRef with
    | some t =>
      simp [sharedStep, hr] at hst
      rw [← hst.2]
      exact ⟨attachOk_rerenderChunk t, detachBeforeInvalid_rerenderChunk t⟩
    | none =>
      simp [sharedStep, hr] at hst
      rw [hst.2]
      exact ⟨attachOk_nil, detachBeforeInvalid_nil⟩
  | unmount =>
    cases hr : s.mapRef with
    | some t =>
      simp [sharedStep, hr] at hst
      rw [← hst.2]
      exact ⟨attachOk_unmountChunk t, detachBeforeInvalid_unmountChunk t⟩
    | none =>
      simp [sharedStep, hr] at hst
      rw [hst.2]
      exact ⟨attachOk_nil, detachBeforeInvalid_nil⟩

theorem sharedStep_mountCond (s : CompState) (h : Nat) (s' : CompState)
    (c : List Action) (hm : s.mapRef.isSome = false)
    (hst : sharedStep s (LifeEvent.mount h) = some (s', c)) :
    s'.mapRef.isSome = true ∧ c.countP isDetach = 0 := by
  cases hr : s.mapRef with
  | some t => rw [hr] at hm; simp at hm
  | none =>
    simp [sharedStep, hr, sharedEffect] at hst
    refine ⟨?_, ?_⟩
    · rw [← hst.1]
      rfl
    · rw [← hst.2]
      simp

theorem sharedStep_rerenderCond (s : CompState) (s' : CompState)
    (c : List Action) (hm : s.mapRef.isSome = true)
    (hst : sharedStep s LifeEvent.rerender = some (s', c)) :
    s'.mapRef.isSome = true ∧ c.countP isDetach = 0 := by
  cases hr : s.mapRef with
  | none => rw [hr] at hm; simp at hm
  | some t =>
    simp [sharedStep, hr] at hst
    refine ⟨?_, ?_⟩
    · rw [← hst.1, hr]
      rfl
    · rw [← hst.2]
      simp

theorem sharedStep_unmountCond (s : CompState) (s' : CompState)
    (c : List Action) (hm : s.mapRef.isSome = true)
    (hst : sharedStep s LifeEvent.unmount = some (s', c)) :
    s'.mapRef.isSome = false ∧ c.countP isDetach = 1 := by
  cases hr : s.mapRef with
  | none => rw [hr] at hm; simp at hm
  | some t =>
    simp [sharedStep, hr] at hst
    refine ⟨?_, ?_⟩
    · rw [← hst.1]
      rfl
    · rw [← hst.2]
      simp

/-! ## Step-level facts: private mode -/

theorem privateStep_total (s : PrivState) (e : LifeEvent) :
    ∃ p, privateStep s e = some p := by
  cases e <;> cases hr : s.mapRef <;> simp [privateStep, privateEffect, hr]

theorem privateStep_chunks (s : PrivState) (e : LifeEvent) (s' : PrivState)
    (c : List Action) (hst : privateStep s e = some (s', c)) :
    attachOk c ∧ detachBeforeInvalid c := by
  cases e with
  | mount h =>
    cases hr : s.mapRef with
    | some t =>
      simp [privateStep, hr] at hst
      rw [hst.2]
      exact ⟨attachOk_nil, detachBeforeInvalid_nil⟩
    | none =>
      simp [privateStep, hr, privateEffect] at hst
      rw [← hst.2]
      exact ⟨attachOk_mountChunk h, detachBeforeInvalid_mountChunk h⟩
  | rerender =>
    cases hr : s.mapRef with
    | some t =>
      simp [privateStep, hr] at hst
      rw [← hst.2]
      exact ⟨attachOk_rerenderChunk t, detachBeforeInvalid_rerenderChunk t⟩
    | none =>
      simp [privateStep, hr] at hst
      rw [hst.2]
      exact ⟨attachOk_nil, detachBeforeInvalid_nil⟩
  | unmount =>
    cases hr : s.mapRef with
    | some t =>
      simp [privateStep, hr] at hst
      rw [← hst.2]
      exact ⟨attachOk_unmountChunk t, detachBeforeInvalid_unmountChunk t⟩
    | none =>
      simp [privateStep, hr] at hst
      rw [hst.2]
      exact ⟨attachOk_nil, detachBeforeInvalid_nil⟩

theorem privateStep_mountCond (s : PrivState) (h : Nat) (s' : PrivState)
    (c : List Action) (hm : s.mapRef.isSome = false)
    (hst : privateStep s (LifeEvent.mount h) = some (s', c)) :
    s'.mapRef.isSome = true ∧ c.countP isDetach = 0 := by
  cases hr : s.mapRef with
  | some t => rw [hr] at hm; simp at hm
  | none =>
    simp [privateStep, hr, privateEffect] at hst
    refine ⟨?_, ?_⟩
    · rw [← hst.1]
      rfl
    · rw [← hst.2]
      simp

theorem privateStep_rerenderCond (s : PrivState) (s' : PrivState)
    (c : List Action) (hm : s.mapRef.isSome = true)
    (hst : privateStep s LifeEvent.rerender = some (s', c)) :
    s'.mapRef.isSome = true ∧ c.countP isDetach = 0 := by
  cases hr : s.mapRef with
  | none => rw [hr] at hm; simp at hm
  | some t =>
    simp [privateStep, hr] at hst
    refine ⟨?_, ?_⟩
    · rw [← hst.1, hr]
      rfl
    · rw [← hst.2]
      simp

theorem privateStep_unmountCond (s : PrivState) (s' : PrivState)
    (c : List Action) (hm : s.mapRef.isSome = true)
    (hst : privateStep s LifeEvent.unmount = some (s', c)) :
    s'.mapRef.isSome = false ∧ c.countP isDetach = 1 := by
  cases hr : s.mapRef with
  | none => rw [hr] at hm; simp at hm
  | some t =>
    simp [privateStep, hr] at hst
    refine ⟨?_, ?_⟩
    · rw [← hst.1]
      rfl
    · rw [← hst.2]
      simp

/-! ## Run-level facts -/

theorem sharedRun_isSome (evs : List LifeEvent) : ∃ p, sharedRun evs = some p :=
  runW_total sharedStep sharedStep_total evs initShared

theorem sharedRun_eq (evs : List LifeEvent) :
    sharedRun evs = some (sharedFinal evs, sharedTrace evs) := by
  obtain ⟨⟨s, tr⟩, h⟩ := sharedRun_isSome evs
  rw [h]
  simp [sharedFinal, sharedTrace, h]

theorem privRun_isSome (evs : List LifeEvent) : ∃ p, privRun evs = some p :=
  runW_total privateStep privateStep_total evs initPriv

theorem privRun_eq (evs : List LifeEvent) :
    privRun evs = some (privFinal evs, privTrace evs) := by
  obtain ⟨⟨s, tr⟩, h⟩ := privRun_isSome evs
  rw [h]
  simp [privFinal, privTrace, h]

theorem sharedTrace_props (evs : List LifeEvent) :
    attachOk (sharedTrace evs) ∧ detachBeforeInvalid (sharedTrace evs) :=
  ⟨runW_trace_pred attachOk sharedStep attachOk_nil
      (fun hc htr => attachOk_append hc htr)
      (fun s e s' c hst => (sharedStep_chunks s e s' c hst).1)
      evs initShared (sharedFinal evs) (sharedTrace evs) (sharedRun_eq evs),
   runW_trace_pred detachBeforeInvalid sharedStep detachBeforeInvalid_nil
      (fun hc htr => detachBeforeInvalid_append hc htr)
      (fun s e s' c hst => (sharedStep_chunks s e s' c hst).2)
      evs initShared (sharedFinal evs) (sharedTrace evs) (sharedRun_eq evs)⟩

theorem privTrace_props (evs : List LifeEvent) :
    attachOk (privTrace evs) ∧ detachBeforeInvalid (privTrace evs) :=
  ⟨runW_trace_pred attachOk privateStep attachOk_nil
      (fun hc htr => attachOk_append hc htr)
      (fun s e s' c hst => (privateStep_chunks s e s' c hst).1)
      evs initPriv (privFinal evs) (privTrace evs) (privRun_eq evs),
   runW_trace_pred detachBeforeInvalid privateStep detachBeforeInvalid_nil
      (fun hc htr => detachBeforeInvalid_append hc htr)
      (fun s e s' c hst => (privateStep_chunks s e s' c hst).2)
      evs initPriv (privFinal evs) (privTrace evs) (privRun_eq evs)⟩

theorem sharedRun_detachCount (evs : List LifeEvent) (hwf : wf evs = true) :
    (sharedTrace evs).countP isDetach = evs.countP isUnmountEv :=
  runW_detachCount sharedStep (fun s => s.mapRef.isSome)
    (fun s h s' c => sharedStep_mountCond s h s' c)
    (fun s s' c => sharedStep_rerenderCond s s' c)
    (fun s s' c => sharedStep_unmountCond s s' c)
    evs initShared (sharedFinal evs) (sharedTrace evs) hwf (sharedRun_eq evs)

theorem privRun_detachCount (evs : List LifeEvent) (hwf : wf evs = true) :
    (privTrace evs).countP isDetach = evs.countP isUnmountEv :=
  runW_detachCount privateStep (fun s => s.mapRef.isSome)
    (fun s h s' c => privateStep_mountCond s h s' c)
    (fun s s' c => privateStep_rerenderCond s s' c)
    (fun s s' c => privateStep_unmountCond s s' c)
    evs initPriv (privFinal evs) (privTrace evs) hwf (privRun_eq evs)

theorem sharedStep_frame (s : CompState) (e : LifeEvent) (s' : CompState)
    (c : List Action) (hst : sharedStep s e = some (s', c)) :
    s'.olMap.layers = s.olMap.layers ∧ s'.olMap.view = s.olMap.view := by
  cases e with
  | mount h =>
    cases hr : s.mapRef with
    | some t =>
      simp [sharedStep, hr] at hst
      rw [← hst.1]
      exact ⟨rfl, rfl⟩
    | none =>
      simp [sharedStep, hr, sharedEffect] at hst
      rw [← hst.1]
      exact ⟨rfl, rfl⟩
  | rerender =>
    cases hr : s.mapRef with
    | some t =>
      simp [sharedStep, hr] at hst
      rw [← hst.1]
      exact ⟨rfl, rfl⟩
    | none =>
      simp [sharedStep, hr] at hst
      rw [← hst.1]
      exact ⟨rfl, rfl⟩
  | unmount =>
    cases hr : s.mapRef with
    | some t =>
      simp [sharedStep, hr] at hst
      rw [← hst.1]
      exact ⟨rfl, rfl⟩
    | none =>
      simp [sharedStep, hr] at hst
      rw [← hst.1]
      exact ⟨rfl, rfl⟩

theorem runW_shared_frame :
    ∀ (evs : List LifeEvent) (s s' : CompState) (tr : List Action),
      runW sharedStep s evs = some (s', tr) →
      s'.olMap.layers = s.olMap.layers ∧ s'.olMap.view = s.olMap.view := by
  intro evs
  induction evs with
  | nil =>
    intro s s' tr hrun
    rw [runW_nil] at hrun
    simp only [Option.some.injEq, Prod.mk.injEq] at hrun
    rw [← hrun.1]
    exact ⟨rfl, rfl⟩
  | cons e es ih =>
    intro s s' tr hrun
    obtain ⟨s1, c, tr1, hst, hr, htr⟩ := runW_cons_inv hrun
    have h1 := sharedStep_frame s e s1 c hst
    have h2 := ih s1 s' tr1 hr
    exact ⟨h2.1.trans h1.1, h2.2.trans h1.2⟩

theorem runW_shared_rerenders (h : Nat) :
    ∀ (n : Nat) (s : CompState), s.mapRef = some h →
      ∃ tr, runW sharedStep s (List.replicate n LifeEvent.rerender) = some (s, tr) ∧
        tr.countP isAttach = 0 := by
  intro n
  induction n with
  | zero => exact fun s hs => ⟨[], rfl, rfl⟩
  | succ n ih =>
    intro s hs
    obtain ⟨tr, he, hc⟩ := ih s hs
    refine ⟨[Action.renderDiv, Action.commit h] ++ tr, ?_, ?_⟩
    · rw [List.replicate_succ]
      exact runW_cons_eq sharedStep (by simp [sharedStep, hs]) he
    · simp [List.countP_append, hc]

theorem runW_private_rerenders (h : Nat) :
    ∀ (n : Nat) (s : PrivState), s.mapRef = some h →
      ∃ tr, runW privateStep s (List.replicate n LifeEvent.rerender) = some (s, tr) ∧
        tr.countP isAttach = 0 := by
  intro n
  induction n with
  | zero => exact fun s hs => ⟨[], rfl, rfl⟩
  | succ n ih =>
    intro s hs
    obtain ⟨tr, he, hc⟩ := ih s hs
    refine ⟨[Action.renderDiv, Action.commit h] ++ tr, ?_, ?_⟩
    · rw [List.replicate_succ]
      exact runW_cons_eq privateStep (by simp [privateStep, hs]) he
    · simp [List.countP_append, hc]

/-! ## Claims -/

/-- C1: for every mount sequence of either map component, the attach step
(`setTarget` with a non-null handle) runs only after the corresponding
surface has been committed to the visible tree, never before: every
`setTargetCall (some h)` in the trace is strictly preceded by `commit h`,
because the attach is deferred into the post-render effect. -/
theorem attach_only_after_commit (evs : List LifeEvent) :
    attachOk (sharedTrace evs) ∧ attachOk (privTrace evs) :=
  ⟨(sharedTrace_props evs).1, (privTrace_props evs).1⟩

/-- C2: in Shared mode, every consumer retrieving the viewer from the
context obtains referentially the same instance: after the context module
is loaded, two independent `useContext` reads both return the one instance
constructed at load (identity `p.constructedViewers`, value `contextMap`),
and the total number of constructions grew by exactly one. -/
theorem shared_viewer_single_instance (p : Proc) :
    (getContext (loadContextModule p)).1 = some (p.constructedViewers, contextMap) ∧
    (getContext ((getContext (loadContextModule p)).2)).1 =
      some (p.constructedViewers, contextMap) ∧
    (getContext ((getContext (loadContextModule p)).2)).2.constructedViewers =
      p.constructedViewers + 1 :=
  ⟨rfl, rfl, rfl⟩

/-- C3: over any well-formed lifecycle stream, each mode's trace contains
exactly one detach (`setTarget(undefined)`) per unmount — the detach count
equals the unmount count — and every handle invalidation is immediately
preceded by that detach, so the detach completes before the handle tied to
the mount becomes invalid. -/
theorem detach_exactly_once_before_invalid (evs : List LifeEvent)
    (hwf : wf evs = true) :
    (sharedTrace evs).countP isDetach = evs.countP isUnmountEv ∧
    detachBeforeInvalid (sharedTrace evs) ∧
    (privTrace evs).countP isDetach = evs.countP isUnmountEv ∧
    detachBeforeInvalid (privTrace evs) :=
  ⟨sharedRun_detachCount evs hwf, (sharedTrace_props evs).2,
   privRun_detachCount evs hwf, (privTrace_props evs).2⟩

/-- Witness for C3 at a concrete stream: mount surface 1, unmount, mount
surface 2, unmount. -/
theorem detach_exactly_once_before_invalid_witness :
    wf [LifeEvent.mount 1, LifeEvent.unmount, LifeEvent.mount 2,
        LifeEvent.unmount] = true ∧
    ((sharedTrace [LifeEvent.mount 1, LifeEvent.unmount, LifeEvent.mount 2,
        LifeEvent.unmount]).countP isDetach =
      [LifeEvent.mount 1, LifeEvent.unmount, LifeEvent.mount 2,
        LifeEvent.unmount].countP isUnmountEv ∧
    detachBeforeInvalid (sharedTrace [LifeEvent.mount 1, LifeEvent.unmount,
        LifeEvent.mount 2, LifeEvent.unmount]) ∧
    (privTrace [LifeEvent.mount 1, LifeEvent.unmount, LifeEvent.mount 2,
        LifeEvent.unmount]).countP isDetach =
      [LifeEvent.mount 1, LifeEvent.unmount, LifeEvent.mount 2,
        LifeEvent.unmount].countP isUnmountEv ∧
    detachBeforeInvalid (privTrace [LifeEvent.mount 1, LifeEvent.unmount,
        LifeEvent.mount 2, LifeEvent.unmount])) :=
  ⟨by decide,
   detach_exactly_once_before_invalid
     [LifeEvent.mount 1, LifeEvent.unmount, LifeEvent.mount 2,
      LifeEvent.unmount] (by decide)⟩

/-- C4: re-rendering the mounted owning component any number of times —
in either ownership mode — does not invoke `setTarget` again: across `n`
re-renders after a mount the attach call count in the trace stays exactly
1, and the component state is the same as immediately after the mount (both
effects have an empty dependency array, so the attach/detach pair runs only
on mount/unmount transitions). -/
theorem no_reattach_on_rerender (h n : Nat) :
    (sharedTrace (LifeEvent.mount h ::
        List.replicate n LifeEvent.rerender)).countP isAttach = 1 ∧
    sharedFinal (LifeEvent.mount h :: List.replicate n LifeEvent.rerender) =
      sharedFinal [LifeEvent.mount h] ∧
    (privTrace (LifeEvent.mount h ::
        List.replicate n LifeEvent.rerender)).countP isAttach = 1 ∧
    privFinal (LifeEvent.mount h :: List.replicate n LifeEvent.rerender) =
      privFinal [LifeEvent.mount h] := by
  obtain ⟨tr, he, hc⟩ := runW_shared_rerenders h n
    { olMap := contextMap.setTarget (some h), mapRef := some h } rfl
  have hrun : sharedRun (LifeEvent.mount h :: List.replicate n LifeEvent.rerender) =
      some ({ olMap := contextMap.setTarget (some h), mapRef := some h },
        [Action.renderDiv, Action.commit h, Action.setTargetCall (some h)] ++ tr) :=
    runW_cons_eq sharedStep rfl he
  obtain ⟨trp, hep, hcp⟩ := runW_private_rerenders h n
    { olMap := some (privateMap h), mapRef := some h } rfl
  have hrunp : privRun (LifeEvent.mount h :: List.replicate n LifeEvent.rerender) =
      some ({ olMap := some (privateMap h), mapRef := some h },
        [Action.renderDiv, Action.commit h, Action.setTargetCall (some h)] ++ trp) :=
    runW_cons_eq privateStep rfl hep
  refine ⟨?_, ?_, ?_, ?_⟩
  · simp [sharedTrace, hrun, List.countP_append, hc]
  · simp [sharedFinal, hrun]
    rfl
  · simp [privTrace, hrunp, List.countP_append, hcp]
  · simp [privFinal, hrunp]
    rfl

/-- C5: the context viewer is constructed detached — immediately after
construction its target is absent — while its center, zoom, and layer list
are the construction-time values. -/
theorem context_map_constructed_detached :
    contextMap.target = none ∧ contextMap.view.center = (0, 0) ∧
    contextMap.view.zoom = 2 ∧ contextMap.layers = [{ source := Source.OSM }] :=
  ⟨rfl, rfl, rfl, rfl⟩

/-- C6: in Private mode the adapter constructs its own viewer inside the
effect, targeted at the committed surface; on unmount the cleanup detaches
it (`setTarget(undefined)` appears once in the trace) and the effect-local
viewer is gone from the adapter's state entirely, not merely detached. -/
theorem private_mode_fresh_viewer_torn_down (h : Nat) :
    privFinal [LifeEvent.mount h] =
      { olMap := some (privateMap h), mapRef := some h } ∧
    (privateMap h).target = some h ∧
    privFinal [LifeEvent.mount h, LifeEvent.unmount] =
      { olMap := none, mapRef := none } ∧
    (privTrace [LifeEvent.mount h, LifeEvent.unmount]).countP isDetach = 1 :=
  ⟨rfl, rfl, rfl, rfl⟩

/-- C7: a viewer holds at most one target and the last `setTarget` wins:
in Shared mode, after mount at site `a`, unmount, and mount at site `b`,
the viewer's final target is `b`'s handle and (for distinct sites) not
`a`'s. -/
theorem last_setTarget_wins_remount (a b : Nat) (hab : a ≠ b) :
    (sharedFinal [LifeEvent.mount a, LifeEvent.unmount,
        LifeEvent.mount b]).olMap.target = some b ∧
    (sharedFinal [LifeEvent.mount a, LifeEvent.unmount,
        LifeEvent.mount b]).olMap.target ≠ some a := by
  refine ⟨rfl, ?_⟩
  intro hcon
  have hba : (some b : Option Nat) = some a := hcon
  exact hab (Option.some.inj hba).symm

/-- Witness for C7 at the concrete sites 1 and 2. -/
theorem last_setTarget_wins_remount_witness :
    (1 : Nat) ≠ 2 ∧
    ((sharedFinal [LifeEvent.mount 1, LifeEvent.unmount,
        LifeEvent.mount 2]).olMap.target = some 2 ∧
     (sharedFinal [LifeEvent.mount 1, LifeEvent.unmount,
        LifeEvent.mount 2]).olMap.target ≠ some 1) :=
  ⟨by decide, last_setTarget_wins_remount 1 2 (by decide)⟩

/-- C8: across any sequence of mount, re-render, and unmount events the
shared-mode adapter mutates the context viewer only through `setTarget`:
the final viewer's layer list and view (center and zoom) are exactly the
construction-time ones. -/
theorem shared_viewer_only_target_mutated (evs : List LifeEvent) :
    (sharedFinal evs).olMap.layers = contextMap.layers ∧
    (sharedFinal evs).olMap.view = contextMap.view :=
  runW_shared_frame evs initShared (sharedFinal evs) (sharedTrace evs)
    (sharedRun_eq evs)

/-- C9: the shared-mode attach dereferences the ref with a non-null
assertion and has no runtime guard (`sharedEffect` with a null ref is the
failure `none`); under the framework precondition that the commit populates
the ref before the effect runs — built into the step semantics — the null
branch is unreachable: every run succeeds. -/
theorem nonnull_assertion_never_fails :
    (∀ m : Map, sharedEffect m none = none) ∧
    ∀ evs : List LifeEvent, ∃ p, sharedRun evs = some p :=
  ⟨fun _ => rfl, fun evs => sharedRun_isSome evs⟩

/-- C10: the viewer configurations of Private and Shared mode are
observably identical — same layer list and same view, namely center
`(0, 0)`, zoom `2`, and a single OSM tile layer — so the ownership mode
does not change the rendered map description. -/
theorem private_shared_config_equal (h : Nat) :
    mapDescription (privateMap h) = mapDescription contextMap ∧
    contextMap.view = { center := (0, 0), zoom := 2 } ∧
    contextMap.layers = [{ source := Source.OSM }] :=
  ⟨rfl, rfl, rfl⟩

end OLReact
